import Mathlib

/-!
Verification of the protocol v1 git-upload-pack response decoder/encoder
(`v1uploadpackresp.go`).  Byte strings of the Go source are modelled as
lists of byte values (`List Nat`); the generic pkt-line framing layer is an
external collaborator and is modelled at the frame level.
-/

namespace Gitprotocolio

/-- ASCII string literals of the Go source, converted to their byte values. -/
def strBytes (s : String) : List Nat :=
  s.data.map Char.toNat

/-- Modelled from the spec: a frame of the packet framing primitive
(`FlushPacket` / `BytesPacket` of the framing layer, which lives outside the
core).  Each frame is either a flush marker or an opaque byte payload. -/
inductive Packet where
  | flush : Packet
  | bytes : List Nat → Packet
deriving DecidableEq

/-- Modelled from the spec: the decode errors of the core.  The Go code
reports every one as a `SyntaxError` string; each constructor here stands for
one distinct `SyntaxError` call site of `Scan` and carries that site's
dynamic data.  `impossibleState` stands for the final
`panic("impossible state")`, which is unreachable from `Scan`. -/
inductive ScanError where
  | cannotSplitShallow (line : List Nat)
  | cannotSplitUnshallow (line : List Nat)
  | cannotSplitAck (line : List Nat)
  | earlyEOF
  | unexpectedPacket (pkt : Packet)
  | impossibleState
deriving DecidableEq

/-- True exactly for the three malformed-line ("cannot split") errors. -/
def ScanError.isCannotSplit : ScanError → Bool
  | .cannotSplitShallow _ => true
  | .cannotSplitUnshallow _ => true
  | .cannotSplitAck _ => true
  | _ => false

/-- The decoder states of `protocolV1UploadPackResponseState`. -/
inductive protocolV1UploadPackResponseState where
  | Begin
  | ScanShallows
  | ScanUnshallows
  | BeginAcknowledgements
  | ScanAcknowledgements
  | ScanPacks
  | End
deriving DecidableEq

/-- Fixed order of the decoder states (position in the `iota` enumeration). -/
def stateIdx : protocolV1UploadPackResponseState → Nat
  | .Begin => 0
  | .ScanShallows => 1
  | .ScanUnshallows => 2
  | .BeginAcknowledgements => 3
  | .ScanAcknowledgements => 4
  | .ScanPacks => 5
  | .End => 6

/-- `ProtocolV1UploadPackResponseChunk`: a chunk of a protocol v1
git-upload-pack response.  Go zero values become the field defaults. -/
structure ProtocolV1UploadPackResponseChunk where
  ShallowObjectID : List Nat := []
  UnshallowObjectID : List Nat := []
  EndOfShallows : Bool := false
  AckObjectID : List Nat := []
  AckDetail : List Nat := []
  Nak : Bool := false
  PackStream : List Nat := []
  EndOfRequest : Bool := false
deriving DecidableEq

instance : Inhabited ProtocolV1UploadPackResponseChunk := ⟨{}⟩

/-- Number of populated variants of a chunk: `AckDetail` is a qualifier of
the `AckObjectID` variant and is not counted. -/
def countPopulated (c : ProtocolV1UploadPackResponseChunk) : Nat :=
  (if c.ShallowObjectID ≠ [] then 1 else 0) +
  (if c.UnshallowObjectID ≠ [] then 1 else 0) +
  (if c.EndOfShallows then 1 else 0) +
  (if c.AckObjectID ≠ [] then 1 else 0) +
  (if c.Nak then 1 else 0) +
  (if c.PackStream ≠ [] then 1 else 0) +
  (if c.EndOfRequest then 1 else 0)

/-- `EncodeToPktLine` serializes the chunk.  The Go method returns the wire
bytes produced by handing one frame to the framing layer; the model returns
that frame itself (the length-header serialization is owned by the framing
layer, outside the core).  `none` models `panic("impossible chunk")`. -/
def ProtocolV1UploadPackResponseChunk.EncodeToPktLine
    (c : ProtocolV1UploadPackResponseChunk) : Option Packet :=
  if c.ShallowObjectID ≠ [] then
    some (.bytes (strBytes "shallow " ++ c.ShallowObjectID ++ [10]))
  else if c.UnshallowObjectID ≠ [] then
    some (.bytes (strBytes "unshallow " ++ c.UnshallowObjectID ++ [10]))
  else if c.EndOfShallows then
    some .flush
  else if c.AckObjectID ≠ [] then
    if c.AckDetail ≠ [] then
      some (.bytes (strBytes "ACK " ++ c.AckObjectID ++ [32] ++ c.AckDetail ++ [10]))
    else
      some (.bytes (strBytes "ACK " ++ c.AckObjectID ++ [10]))
  else if c.Nak then
    some (.bytes (strBytes "NAK\n"))
  else if c.PackStream ≠ [] then
    some (.bytes c.PackStream)
  else if c.EndOfRequest then
    some .flush
  else
    none

/-- Go `strings.SplitN(s, sep, 2)`-style helper: split at the first
occurrence of `sep`, if any. -/
def splitOnFirst (sep : Nat) : List Nat → Option (List Nat × List Nat)
  | [] => none
  | b :: rest =>
    if b = sep then some ([], rest)
    else
      match splitOnFirst sep rest with
      | none => none
      | some (l, r) => some (b :: l, r)

/-- Go `strings.SplitN(s, sep, n)` for a one-byte separator and `n > 0`:
at most `n` parts, the last part keeps the remaining separators. -/
def splitN (sep : Nat) : Nat → List Nat → List (List Nat)
  | 0, _ => []
  | 1, s => [s]
  | n + 2, s =>
    match splitOnFirst sep s with
    | none => [s]
    | some (l, r) => l :: splitN sep (n + 1) r

/-- Go `strings.TrimSuffix(s, "\n")`: drop one trailing newline byte. -/
def trimSuffixLF (b : List Nat) : List Nat :=
  if b.getLast? = some 10 then b.dropLast else b

/-- Result of classifying one frame: either a decode error, or the emitted
chunk together with the next decoder state. -/
abbrev StepResult :=
  Except ScanError (ProtocolV1UploadPackResponseChunk × protocolV1UploadPackResponseState)

/-- The `case protocolV1UploadPackResponseStateScanPacks` block of `Scan`.
The Go `default` branch (a frame that is neither flush nor byte payload) is
unrepresentable here, because the spec's framing model has exactly those two
frame shapes. -/
def casePacks (pkt : Packet) : StepResult :=
  match pkt with
  | .flush => .ok ({ EndOfRequest := true }, .End)
  | .bytes p => .ok ({ PackStream := p }, .ScanPacks)

/-- The `case ...BeginAcknowledgements, ...ScanAcknowledgements` block of
`Scan`, including its fallthrough into the pack block; `s` is the decoder
state on entry to the call (the Go `r.state` read by the `Begin` test). -/
def caseAcknowledgements (s : protocolV1UploadPackResponseState) (pkt : Packet) : StepResult :=
  match pkt with
  | .bytes bp =>
    if (strBytes "ACK ").isPrefixOf bp then
      let ss := splitN 32 3 (trimSuffixLF bp)
      if ss.length < 2 then .error (.cannotSplitAck bp)
      else
        .ok ({ AckObjectID := ss.getD 1 [],
               AckDetail := if ss.length = 3 then ss.getD 2 [] else [] },
             .ScanAcknowledgements)
    else if bp = strBytes "NAK\n" then
      .ok ({ Nak := true }, .ScanPacks)
    else if s = .Begin then .error (.unexpectedPacket pkt)
    else casePacks pkt
  | .flush =>
    if s = .Begin then .error (.unexpectedPacket pkt)
    else casePacks pkt

/-- The `case ...ScanUnshallows` block of `Scan`, including its fallthrough. -/
def caseUnshallows (s : protocolV1UploadPackResponseState) (pkt : Packet) : StepResult :=
  match pkt with
  | .bytes bp =>
    if (strBytes "unshallow ").isPrefixOf bp then
      let ss := splitN 32 2 (trimSuffixLF bp)
      if ss.length < 2 then .error (.cannotSplitUnshallow bp)
      else .ok ({ UnshallowObjectID := ss.getD 1 [] }, .ScanUnshallows)
    else caseAcknowledgements s pkt
  | .flush => .ok ({ EndOfShallows := true }, .BeginAcknowledgements)

/-- The `case ...Begin, ...ScanShallows` block of `Scan`, incl. fallthrough. -/
def caseShallows (s : protocolV1UploadPackResponseState) (pkt : Packet) : StepResult :=
  match pkt with
  | .bytes bp =>
    if (strBytes "shallow ").isPrefixOf bp then
      let ss := splitN 32 2 (trimSuffixLF bp)
      if ss.length < 2 then .error (.cannotSplitShallow bp)
      else .ok ({ ShallowObjectID := ss.getD 1 [] }, .ScanShallows)
    else caseUnshallows s pkt
  | .flush => caseUnshallows s pkt

/-- The `switch r.state` of `Scan`, run on one frame: Go's label fallthrough
becomes the chained `case...` functions above. -/
def scanStep (s : protocolV1UploadPackResponseState) (pkt : Packet) : StepResult :=
  match s with
  | .Begin => caseShallows s pkt
  | .ScanShallows => caseShallows s pkt
  | .ScanUnshallows => caseUnshallows s pkt
  | .BeginAcknowledgements => caseAcknowledgements s pkt
  | .ScanAcknowledgements => caseAcknowledgements s pkt
  | .ScanPacks => casePacks pkt
  | .End => .error .impossibleState

/-- `ProtocolV1UploadPackResponse`: the decoder.  The `PacketScanner` over
the underlying reader is modelled by the list of frames not yet consumed
(clean end-of-input when it is exhausted, as reported by a scanner whose
`Err()` is nil). -/
structure ProtocolV1UploadPackResponse where
  scanner : List Packet
  state : protocolV1UploadPackResponseState := .Begin
  err : Option ScanError := none
  curr : Option ProtocolV1UploadPackResponseChunk := none
deriving DecidableEq

/-- `NewProtocolV1UploadPackResponse` reading the given frame sequence. -/
def NewProtocolV1UploadPackResponse (pkts : List Packet) : ProtocolV1UploadPackResponse :=
  { scanner := pkts }

/-- `Err` returns the first non-EOF error encountered by the decoder. -/
def ProtocolV1UploadPackResponse.Err (r : ProtocolV1UploadPackResponse) : Option ScanError :=
  r.err

/-- `Chunk` returns the most recent chunk generated by a call to `Scan`. -/
def ProtocolV1UploadPackResponse.Chunk (r : ProtocolV1UploadPackResponse) :
    Option ProtocolV1UploadPackResponseChunk :=
  r.curr

/-- `Scan` advances the decoder to the next packet, returning `false` when
the scan stops (end of the input or an error) together with the decoder's
new state. -/
def ProtocolV1UploadPackResponse.Scan (r : ProtocolV1UploadPackResponse) :
    Bool × ProtocolV1UploadPackResponse :=
  if r.err ≠ none ∨ r.state = .End then (false, r)
  else
    match r.scanner with
    | [] =>
      if r.state ≠ .BeginAcknowledgements then (false, { r with err := some .earlyEOF })
      else (false, r)
    | pkt :: rest =>
      match scanStep r.state pkt with
      | .error e => (false, { r with scanner := rest, err := some e })
      | .ok (c, s) => (true, { r with scanner := rest, state := s, curr := some c })

/-- Repeated `Scan` calls, collecting the chunk of every successful call and
stopping at the first `false`; `n` bounds the number of calls. -/
def runEvents : Nat → ProtocolV1UploadPackResponse →
    List ProtocolV1UploadPackResponseChunk × ProtocolV1UploadPackResponse
  | 0, r => ([], r)
  | n + 1, r =>
    match r.Scan with
    | (true, r2) =>
      let p := runEvents n r2
      (r2.curr.getD {} :: p.1, p.2)
    | (false, r2) => ([], r2)

/-- Decode a whole frame sequence: `pkts.length + 1` calls always reach the
stopping `Scan`, since every successful call consumes one frame. -/
def decode (pkts : List Packet) :
    List ProtocolV1UploadPackResponseChunk × ProtocolV1UploadPackResponse :=
  runEvents (pkts.length + 1) (NewProtocolV1UploadPackResponse pkts)

/-- The decoder states visited across successive `Scan` calls (`n` bounds
the number of calls; the trace stops at the first `false`). -/
def stateTrace : Nat → ProtocolV1UploadPackResponse → List protocolV1UploadPackResponseState
  | 0, r => [r.state]
  | n + 1, r =>
    match r.Scan with
    | (true, r2) => r.state :: stateTrace n r2
    | (false, _) => [r.state]

/-- Iterate `Scan`, keeping only the decoder. -/
def scanIter : Nat → ProtocolV1UploadPackResponse → ProtocolV1UploadPackResponse
  | 0, r => r
  | n + 1, r => scanIter n (r.Scan).2

/-- The spec's Response Event sum type: the tagged view of a chunk with
exactly one variant populated. -/
inductive Event where
  | shallowAnnounce (id : List Nat)
  | unshallowAnnounce (id : List Nat)
  | endOfShallowPhase
  | acknowledge (id detail : List Nat)
  | negativeAcknowledge
  | packChunk (b : List Nat)
  | endOfResponse
deriving DecidableEq

/-- The chunk an event denotes (all other fields at their zero values). -/
def Event.toChunk : Event → ProtocolV1UploadPackResponseChunk
  | .shallowAnnounce id => { ShallowObjectID := id }
  | .unshallowAnnounce id => { UnshallowObjectID := id }
  | .endOfShallowPhase => { EndOfShallows := true }
  | .acknowledge id detail => { AckObjectID := id, AckDetail := detail }
  | .negativeAcknowledge => { Nak := true }
  | .packChunk b => { PackStream := b }
  | .endOfResponse => { EndOfRequest := true }

/-- Well-formedness of an event per the spec's grammar: object ids are
non-empty, a pack chunk's payload is non-empty. -/
def Event.wf : Event → Bool
  | .shallowAnnounce id => decide (id ≠ [])
  | .unshallowAnnounce id => decide (id ≠ [])
  | .acknowledge id _ => decide (id ≠ [])
  | .packChunk b => decide (b ≠ [])
  | _ => true

/-- Whether an Acknowledge event's object id is free of space bytes (always
true for the other variants). -/
def Event.ackSpaceFree : Event → Bool
  | .acknowledge id _ => decide ((32 : Nat) ∉ id)
  | _ => true

/-- Modelled from the spec: the frame the Event Encoder contract prescribes
for each event (the spec-side mapping, to be compared with the source's
`EncodeToPktLine`). -/
def specEventFrame : Event → Packet
  | .shallowAnnounce id => .bytes (strBytes "shallow " ++ id ++ strBytes "\n")
  | .unshallowAnnounce id => .bytes (strBytes "unshallow " ++ id ++ strBytes "\n")
  | .endOfShallowPhase => .flush
  | .acknowledge id detail =>
    if detail.isEmpty then .bytes (strBytes "ACK " ++ id ++ strBytes "\n")
    else .bytes (strBytes "ACK " ++ id ++ strBytes " " ++ detail ++ strBytes "\n")
  | .negativeAcknowledge => .bytes (strBytes "NAK\n")
  | .packChunk b => .bytes b
  | .endOfResponse => .flush

/-- A decoder state in which the given event is legal per the phase grammar. -/
def legalPhase : Event → protocolV1UploadPackResponseState
  | .shallowAnnounce _ => .Begin
  | .unshallowAnnounce _ => .Begin
  | .endOfShallowPhase => .Begin
  | .acknowledge _ _ => .BeginAcknowledgements
  | .negativeAcknowledge => .BeginAcknowledgements
  | .packChunk _ => .ScanPacks
  | .endOfResponse => .ScanPacks

/-- The decoder state after decoding the given event from `legalPhase`. -/
def phaseAfter : Event → protocolV1UploadPackResponseState
  | .shallowAnnounce _ => .ScanShallows
  | .unshallowAnnounce _ => .ScanUnshallows
  | .endOfShallowPhase => .BeginAcknowledgements
  | .acknowledge _ _ => .ScanAcknowledgements
  | .negativeAcknowledge => .ScanPacks
  | .packChunk _ => .ScanPacks
  | .endOfResponse => .End

/-- A decoder positioned at the given state with the given remaining frames
(no error recorded, no current chunk). -/
def atPhase (s : protocolV1UploadPackResponseState) (pkts : List Packet) :
    ProtocolV1UploadPackResponse :=
  { scanner := pkts, state := s }

/-! ### Helper lemmas about the byte-string operations -/

theorem splitOnFirst_of_not_mem {sep : Nat} {l : List Nat} (h : sep ∉ l) :
    splitOnFirst sep l = none := by
  induction l with
  | nil => rfl
  | cons b rest ih =>
    have hb : ¬b = sep := fun hb => h (hb ▸ List.mem_cons_self b rest)
    have hr : sep ∉ rest := fun hr => h (List.mem_cons_of_mem b hr)
    simp [splitOnFirst, hb, ih hr]

theorem splitOnFirst_isSome_of_mem {sep : Nat} {l : List Nat} (h : sep ∈ l) :
    ∃ p, splitOnFirst sep l = some p := by
  induction l with
  | nil => cases h
  | cons b rest ih =>
    by_cases hb : b = sep
    · exact ⟨([], rest), by simp [splitOnFirst, hb]⟩
    · have hr : sep ∈ rest := by
        rcases List.mem_cons.mp h with h1 | h1
        · exact absurd h1.symm hb
        · exact h1
      obtain ⟨⟨a, c⟩, hp⟩ := ih hr
      exact ⟨(b :: a, c), by simp [splitOnFirst, hb, hp]⟩

theorem splitOnFirst_append_sep {sep : Nat} {l : List Nat} (h : sep ∉ l) (r : List Nat) :
    splitOnFirst sep (l ++ sep :: r) = some (l, r) := by
  induction l with
  | nil => simp [splitOnFirst]
  | cons b rest ih =>
    have hb : ¬b = sep := fun hb => h (hb ▸ List.mem_cons_self b rest)
    have hr : sep ∉ rest := fun hr => h (List.mem_cons_of_mem b hr)
    simp [splitOnFirst, hb, ih hr]

theorem splitN_ne_nil (sep n : Nat) (l : List Nat) : splitN sep (n + 1) l ≠ [] := by
  cases n with
  | zero => simp [splitN]
  | succ m =>
    show splitN sep (m + 2) l ≠ []
    unfold splitN
    cases splitOnFirst sep l with
    | none => simp
    | some p => simp

theorem splitN_length_of_mem {sep : Nat} {l : List Nat} (h : sep ∈ l) (n : Nat) :
    2 ≤ (splitN sep (n + 2) l).length := by
  obtain ⟨⟨a, b⟩, hp⟩ := splitOnFirst_isSome_of_mem h
  have h1 : 0 < (splitN sep (n + 1) b).length :=
    List.length_pos.mpr (splitN_ne_nil sep n b)
  simp only [splitN, hp, List.length_cons]
  omega

theorem splitN_two_append {l r : List Nat} (h : (32 : Nat) ∉ l) :
    splitN 32 2 (l ++ 32 :: r) = [l, r] := by
  show splitN 32 (0 + 2) (l ++ 32 :: r) = [l, r]
  unfold splitN
  rw [splitOnFirst_append_sep h]
  rfl

theorem splitN_three_append {l r : List Nat} (h : (32 : Nat) ∉ l) :
    splitN 32 3 (l ++ 32 :: r) = l :: splitN 32 2 r := by
  show splitN 32 (1 + 2) (l ++ 32 :: r) = l :: splitN 32 2 r
  unfold splitN
  rw [splitOnFirst_append_sep h]
  rfl

theorem splitN_two_of_not_mem {l : List Nat} (h : (32 : Nat) ∉ l) :
    splitN 32 2 l = [l] := by
  show splitN 32 (0 + 2) l = [l]
  unfold splitN
  rw [splitOnFirst_of_not_mem h]

theorem trimSuffixLF_concat (l : List Nat) : trimSuffixLF (l ++ [10]) = l := by
  simp [trimSuffixLF, List.getLast?_concat]

theorem isPrefixOf_append_self (l t : List Nat) : l.isPrefixOf (l ++ t) = true := by
  simp

theorem mem_trimSuffixLF_of_isPrefixOf {pre bp : List Nat} {a : Nat}
    (h : pre.isPrefixOf bp = true) (ha : a ∈ pre) (hl : pre.getLast? = some a)
    (hne : a ≠ 10) : a ∈ trimSuffixLF bp := by
  obtain ⟨t, rfl⟩ := List.isPrefixOf_iff_prefix.mp h
  unfold trimSuffixLF
  split
  · rename_i hlast
    cases t with
    | nil =>
      rw [List.append_nil] at hlast
      rw [hl] at hlast
      exact absurd (Option.some.inj hlast) hne
    | cons c ts =>
      rw [List.dropLast_append_of_ne_nil _ (List.cons_ne_nil c ts)]
      exact List.mem_append_left _ ha
  · exact List.mem_append_left _ ha

/-- If a payload starts with one of the grammar's literal prefixes (all of
which end in a space byte), splitting the trimmed payload on spaces yields at
least two parts. -/
theorem two_le_splitN_of_pre {pre bp : List Nat} (h : pre.isPrefixOf bp = true)
    (hmem : (32 : Nat) ∈ pre) (hl : pre.getLast? = some 32) (n : Nat) :
    2 ≤ (splitN 32 (n + 2) (trimSuffixLF bp)).length :=
  splitN_length_of_mem (mem_trimSuffixLF_of_isPrefixOf h hmem hl (by decide)) n

/-! ### Shape lemmas for the rule-cascade blocks -/

theorem casePacks_ok (p : Packet) : ∃ c s', casePacks p = .ok (c, s') := by
  cases p with
  | flush => exact ⟨_, _, rfl⟩
  | bytes b => exact ⟨_, _, rfl⟩

theorem caseAcknowledgements_nak (s : protocolV1UploadPackResponseState) :
    caseAcknowledgements s (.bytes (strBytes "NAK\n")) =
      .ok ({ Nak := true }, .ScanPacks) := by
  simp only [caseAcknowledgements]
  rw [if_neg (by decide)]
  simp

theorem caseAcknowledgements_error {s : protocolV1UploadPackResponseState} {p : Packet}
    {e : ScanError} (h : caseAcknowledgements s p = .error e) :
    e = .unexpectedPacket p ∧ s = .Begin := by
  cases p with
  | flush =>
    by_cases hb : s = protocolV1UploadPackResponseState.Begin
    · simp only [caseAcknowledgements, if_pos hb] at h
      exact ⟨(Except.error.inj h).symm, hb⟩
    · simp [caseAcknowledgements, hb, casePacks] at h
  | bytes bp =>
    by_cases h1 : (strBytes "ACK ").isPrefixOf bp = true
    · have h2 : ¬(splitN 32 3 (trimSuffixLF bp)).length < 2 := by
        have := two_le_splitN_of_pre h1 (by decide) (by decide) 1
        norm_num at this
        omega
      simp [caseAcknowledgements, h1, h2] at h
    · by_cases h3 : bp = strBytes "NAK\n"
      · rw [h3, caseAcknowledgements_nak] at h
        exact Except.noConfusion h
      · by_cases hb : s = protocolV1UploadPackResponseState.Begin
        · simp only [caseAcknowledgements, Bool.not_eq_true] at h
          rw [if_neg (by simp [h1]), if_neg h3, if_pos hb] at h
          exact ⟨(Except.error.inj h).symm, hb⟩
        · simp [caseAcknowledgements, h1, h3, hb, casePacks] at h

theorem caseUnshallows_error {s : protocolV1UploadPackResponseState} {p : Packet}
    {e : ScanError} (h : caseUnshallows s p = .error e) :
    e = .unexpectedPacket p ∧ s = .Begin := by
  cases p with
  | flush => simp [caseUnshallows] at h
  | bytes bp =>
    by_cases h1 : (strBytes "unshallow ").isPrefixOf bp = true
    · have h2 : ¬(splitN 32 2 (trimSuffixLF bp)).length < 2 := by
        have := two_le_splitN_of_pre h1 (by decide) (by decide) 0
        norm_num at this
        omega
      simp [caseUnshallows, h1, h2] at h
    · refine caseAcknowledgements_error (p := .bytes bp) ?_
      rw [← h]
      simp [caseUnshallows, h1]

theorem caseShallows_error {s : protocolV1UploadPackResponseState} {p : Packet}
    {e : ScanError} (h : caseShallows s p = .error e) :
    e = .unexpectedPacket p ∧ s = .Begin := by
  cases p with
  | flush =>
    refine caseUnshallows_error (p := .flush) ?_
    rw [← h]
    simp [caseShallows]
  | bytes bp =>
    by_cases h1 : (strBytes "shallow ").isPrefixOf bp = true
    · have h2 : ¬(splitN 32 2 (trimSuffixLF bp)).length < 2 := by
        have := two_le_splitN_of_pre h1 (by decide) (by decide) 0
        norm_num at this
        omega
      simp [caseShallows, h1, h2] at h
    · refine caseUnshallows_error (p := .bytes bp) ?_
      rw [← h]
      simp [caseShallows, h1]

/-- Every error `scanStep` can produce is either the unexpected-packet error
raised at state `Begin`, or the impossible-state marker at state `End`. -/
theorem scanStep_error {s : protocolV1UploadPackResponseState} {p : Packet}
    {e : ScanError} (h : scanStep s p = .error e) :
    (e = .unexpectedPacket p ∧ s = .Begin) ∨
      (e = .impossibleState ∧ s = .End) := by
  cases s with
  | Begin => exact Or.inl (caseShallows_error h)
  | ScanShallows => exact Or.inl (caseShallows_error h)
  | ScanUnshallows => exact Or.inl (caseUnshallows_error h)
  | BeginAcknowledgements => exact Or.inl (caseAcknowledgements_error h)
  | ScanAcknowledgements => exact Or.inl (caseAcknowledgements_error h)
  | ScanPacks =>
    obtain ⟨c, s', hc⟩ := casePacks_ok p
    rw [scanStep, hc] at h
    exact Except.noConfusion h
  | End => exact Or.inr ⟨(Except.error.inj h).symm, rfl⟩

theorem casePacks_ok_inv {p : Packet} {c : ProtocolV1UploadPackResponseChunk}
    {s' : protocolV1UploadPackResponseState} (h : casePacks p = .ok (c, s')) :
    countPopulated c ≤ 1 ∧ 5 ≤ stateIdx s' := by
  cases p with
  | flush =>
    simp only [casePacks] at h
    injection h with h'
    injection h' with h1 h2
    subst h1
    subst h2
    exact ⟨by decide, by decide⟩
  | bytes b =>
    simp only [casePacks] at h
    injection h with h'
    injection h' with h1 h2
    subst h1
    subst h2
    refine ⟨?_, by decide⟩
    simp only [countPopulated]
    split_ifs <;> simp_all

theorem caseAcknowledgements_ok_inv {s : protocolV1UploadPackResponseState} {p : Packet}
    {c : ProtocolV1UploadPackResponseChunk} {s' : protocolV1UploadPackResponseState}
    (h : caseAcknowledgements s p = .ok (c, s')) :
    countPopulated c ≤ 1 ∧ 4 ≤ stateIdx s' := by
  cases p with
  | flush =>
    simp only [caseAcknowledgements] at h
    split at h
    · exact Except.noConfusion h
    · obtain ⟨h1, h2⟩ := casePacks_ok_inv h
      exact ⟨h1, Nat.le_trans (by decide) h2⟩
  | bytes bp =>
    simp only [caseAcknowledgements] at h
    split at h
    · split at h
      · exact Except.noConfusion h
      · injection h with h'
        injection h' with h1 h2
        subst h1
        subst h2
        refine ⟨?_, by decide⟩
        simp only [countPopulated]
        split_ifs <;> simp_all
    · split at h
      · injection h with h'
        injection h' with h1 h2
        subst h1
        subst h2
        exact ⟨by decide, by decide⟩
      · split at h
        · exact Except.noConfusion h
        · obtain ⟨h1, h2⟩ := casePacks_ok_inv h
          exact ⟨h1, Nat.le_trans (by decide) h2⟩

theorem caseUnshallows_ok_inv {s : protocolV1UploadPackResponseState} {p : Packet}
    {c : ProtocolV1UploadPackResponseChunk} {s' : protocolV1UploadPackResponseState}
    (h : caseUnshallows s p = .ok (c, s')) :
    countPopulated c ≤ 1 ∧ 2 ≤ stateIdx s' := by
  cases p with
  | flush =>
    simp only [caseUnshallows] at h
    injection h with h'
    injection h' with h1 h2
    subst h1
    subst h2
    exact ⟨by decide, by decide⟩
  | bytes bp =>
    simp only [caseUnshallows] at h
    split at h
    · split at h
      · exact Except.noConfusion h
      · injection h with h'
        injection h' with h1 h2
        subst h1
        subst h2
        refine ⟨?_, by decide⟩
        simp only [countPopulated]
        split_ifs <;> simp_all
    · obtain ⟨h1, h2⟩ := caseAcknowledgements_ok_inv h
      exact ⟨h1, Nat.le_trans (by decide) h2⟩

theorem caseShallows_ok_inv {s : protocolV1UploadPackResponseState} {p : Packet}
    {c : ProtocolV1UploadPackResponseChunk} {s' : protocolV1UploadPackResponseState}
    (h : caseShallows s p = .ok (c, s')) :
    countPopulated c ≤ 1 ∧ 1 ≤ stateIdx s' := by
  cases p with
  | flush =>
    simp only [caseShallows] at h
    obtain ⟨h1, h2⟩ := caseUnshallows_ok_inv h
    exact ⟨h1, Nat.le_trans (by decide) h2⟩
  | bytes bp =>
    simp only [caseShallows] at h
    split at h
    · split at h
      · exact Except.noConfusion h
      · injection h with h'
        injection h' with h1 h2
        subst h1
        subst h2
        refine ⟨?_, by decide⟩
        simp only [countPopulated]
        split_ifs <;> simp_all
    · obtain ⟨h1, h2⟩ := caseUnshallows_ok_inv h
      exact ⟨h1, Nat.le_trans (by decide) h2⟩

/-- Every successful classification emits a chunk with at most one populated
variant and moves the state forward (never backward). -/
theorem scanStep_ok_inv {s : protocolV1UploadPackResponseState} {p : Packet}
    {c : ProtocolV1UploadPackResponseChunk} {s' : protocolV1UploadPackResponseState}
    (h : scanStep s p = .ok (c, s')) :
    countPopulated c ≤ 1 ∧ stateIdx s ≤ stateIdx s' := by
  cases s with
  | Begin => exact ⟨(caseShallows_ok_inv h).1, Nat.zero_le _⟩
  | ScanShallows => exact caseShallows_ok_inv h
  | ScanUnshallows => exact caseUnshallows_ok_inv h
  | BeginAcknowledgements =>
    obtain ⟨h1, h2⟩ := caseAcknowledgements_ok_inv h
    exact ⟨h1, Nat.le_trans (by decide) h2⟩
  | ScanAcknowledgements => exact caseAcknowledgements_ok_inv h
  | ScanPacks => exact casePacks_ok_inv h
  | End => exact Except.noConfusion h

/-- In any state other than `Begin` and `End`, every frame matches some rule
of the cascade: `scanStep` always succeeds there. -/
theorem scanStep_ok_of_middle {s : protocolV1UploadPackResponseState} (p : Packet)
    (h1 : s ≠ .Begin) (h2 : s ≠ .End) :
    ∃ c s', scanStep s p = .ok (c, s') := by
  cases hs : scanStep s p with
  | error e =>
    rcases scanStep_error hs with ⟨-, hb⟩ | ⟨-, hb⟩
    · exact absurd hb h1
    · exact absurd hb h2
  | ok a =>
    obtain ⟨c, s'⟩ := a
    exact ⟨c, s', rfl⟩

/-! ### Evaluation of the rule cascade on encoded payloads -/

theorem isPrefixOf_false_of_head {a b : Nat} {l m : List Nat} (h : a ≠ b) :
    (a :: l).isPrefixOf (b :: m) = false := by
  rw [List.isPrefixOf_cons₂]
  simp [h]

theorem not_shallow_pre_unshallow (l : List Nat) :
    (strBytes "shallow ").isPrefixOf (strBytes "unshallow " ++ l) = false := by
  rw [show strBytes "shallow " = 115 :: strBytes "hallow " from by decide,
    show strBytes "unshallow " = 117 :: strBytes "nshallow " from by decide,
    List.cons_append]
  exact isPrefixOf_false_of_head (by decide)

theorem caseShallows_decode (s : protocolV1UploadPackResponseState) (id : List Nat) :
    caseShallows s (.bytes (strBytes "shallow " ++ id ++ [10])) =
      .ok ({ ShallowObjectID := id }, .ScanShallows) := by
  have hpre : (strBytes "shallow ").isPrefixOf (strBytes "shallow " ++ id ++ [10]) = true := by
    rw [List.append_assoc]
    exact isPrefixOf_append_self _ _
  have htrim : trimSuffixLF (strBytes "shallow " ++ (id ++ [10])) = strBytes "shallow " ++ id := by
    rw [← List.append_assoc]
    exact trimSuffixLF_concat _
  have hsplit : splitN 32 2 (strBytes "shallow " ++ id) = [strBytes "shallow", id] := by
    rw [show strBytes "shallow " = strBytes "shallow" ++ [32] from by decide,
      List.append_assoc, List.singleton_append]
    exact splitN_two_append (by decide)
  simp [caseShallows, hpre, htrim, hsplit]

theorem caseUnshallows_decode (s : protocolV1UploadPackResponseState) (id : List Nat) :
    caseUnshallows s (.bytes (strBytes "unshallow " ++ id ++ [10])) =
      .ok ({ UnshallowObjectID := id }, .ScanUnshallows) := by
  have hpre : (strBytes "unshallow ").isPrefixOf (strBytes "unshallow " ++ id ++ [10]) = true := by
    rw [List.append_assoc]
    exact isPrefixOf_append_self _ _
  have htrim : trimSuffixLF (strBytes "unshallow " ++ (id ++ [10])) = strBytes "unshallow " ++ id := by
    rw [← List.append_assoc]
    exact trimSuffixLF_concat _
  have hsplit : splitN 32 2 (strBytes "unshallow " ++ id) = [strBytes "unshallow", id] := by
    rw [show strBytes "unshallow " = strBytes "unshallow" ++ [32] from by decide,
      List.append_assoc, List.singleton_append]
    exact splitN_two_append (by decide)
  simp [caseUnshallows, hpre, htrim, hsplit]

theorem caseAcknowledgements_decode_nodetail (s : protocolV1UploadPackResponseState)
    {id : List Nat} (hid : (32 : Nat) ∉ id) :
    caseAcknowledgements s (.bytes (strBytes "ACK " ++ id ++ [10])) =
      .ok ({ AckObjectID := id, AckDetail := [] }, .ScanAcknowledgements) := by
  have hpre : (strBytes "ACK ").isPrefixOf (strBytes "ACK " ++ id ++ [10]) = true := by
    rw [List.append_assoc]
    exact isPrefixOf_append_self _ _
  have htrim : trimSuffixLF (strBytes "ACK " ++ (id ++ [10])) = strBytes "ACK " ++ id := by
    rw [← List.append_assoc]
    exact trimSuffixLF_concat _
  have hsplit : splitN 32 3 (strBytes "ACK " ++ id) = [strBytes "ACK", id] := by
    rw [show strBytes "ACK " = strBytes "ACK" ++ [32] from by decide,
      List.append_assoc, List.singleton_append, splitN_three_append (by decide),
      splitN_two_of_not_mem hid]
  simp [caseAcknowledgements, hpre, htrim, hsplit]

theorem caseAcknowledgements_decode_detail (s : protocolV1UploadPackResponseState)
    {id : List Nat} (detail : List Nat) (hid : (32 : Nat) ∉ id) :
    caseAcknowledgements s (.bytes (strBytes "ACK " ++ id ++ [32] ++ detail ++ [10])) =
      .ok ({ AckObjectID := id, AckDetail := detail }, .ScanAcknowledgements) := by
  have hpre : (strBytes "ACK ").isPrefixOf
      (strBytes "ACK " ++ id ++ [32] ++ detail ++ [10]) = true := by
    rw [List.append_assoc, List.append_assoc, List.append_assoc]
    exact isPrefixOf_append_self _ _
  have htrim2 : trimSuffixLF (strBytes "ACK " ++ (id ++ 32 :: (detail ++ [10]))) =
      strBytes "ACK " ++ (id ++ 32 :: detail) := by
    rw [show strBytes "ACK " ++ (id ++ 32 :: (detail ++ [10])) =
        (strBytes "ACK " ++ (id ++ 32 :: detail)) ++ [10] from by simp]
    exact trimSuffixLF_concat _
  have hsplit2 : splitN 32 3 (strBytes "ACK " ++ (id ++ 32 :: detail)) =
      [strBytes "ACK", id, detail] := by
    rw [show strBytes "ACK " ++ (id ++ 32 :: detail) =
        strBytes "ACK" ++ 32 :: (id ++ 32 :: detail) from by
      rw [show strBytes "ACK " = strBytes "ACK" ++ [32] from by decide]
      simp]
    rw [splitN_three_append (by decide), splitN_two_append hid]
  simp [caseAcknowledgements, hpre, htrim2, hsplit2]

/-! ### Inversion lemmas for Scan -/

theorem Scan_cons_ok {s : protocolV1UploadPackResponseState} {pkt : Packet}
    {c : ProtocolV1UploadPackResponseChunk} {s' : protocolV1UploadPackResponseState}
    (rest : List Packet) (hstep : scanStep s pkt = .ok (c, s')) (hs : s ≠ .End) :
    (atPhase s (pkt :: rest)).Scan =
      (true, { scanner := rest, state := s', err := none, curr := some c }) := by
  simp [ProtocolV1UploadPackResponse.Scan, atPhase, hs, hstep]

theorem Scan_true_shape {r r2 : ProtocolV1UploadPackResponse} (h : r.Scan = (true, r2)) :
    ∃ pkt rest c s', r.scanner = pkt :: rest ∧ scanStep r.state pkt = .ok (c, s') ∧
      r2 = { r with scanner := rest, state := s', curr := some c } := by
  by_cases hg : r.err ≠ none ∨ r.state = .End
  · simp [ProtocolV1UploadPackResponse.Scan, hg] at h
  · cases hsc : r.scanner with
    | nil =>
      by_cases hb : r.state = .BeginAcknowledgements
      · simp [ProtocolV1UploadPackResponse.Scan, hg, hsc, hb] at h
      · simp [ProtocolV1UploadPackResponse.Scan, hg, hsc, hb] at h
    | cons pkt rest =>
      cases hstep : scanStep r.state pkt with
      | error e => simp [ProtocolV1UploadPackResponse.Scan, hg, hsc, hstep] at h
      | ok a =>
        obtain ⟨c, s'⟩ := a
        simp only [ProtocolV1UploadPackResponse.Scan, hg, hsc, hstep, if_neg hg] at h
        exact ⟨pkt, rest, c, s', rfl, hstep, (Prod.mk.injEq _ _ _ _ ▸ h).2.symm⟩

theorem Scan_false_fix (r : ProtocolV1UploadPackResponse) (h : (r.Scan).1 = false) :
    (r.Scan).2.Scan = (false, (r.Scan).2) := by
  by_cases hg : r.err ≠ none ∨ r.state = .End
  · have h2 : r.Scan = (false, r) := by simp [ProtocolV1UploadPackResponse.Scan, hg]
    rw [h2]
    simp [ProtocolV1UploadPackResponse.Scan, hg]
  · cases hsc : r.scanner with
    | nil =>
      by_cases hb : r.state = .BeginAcknowledgements
      · have h2 : r.Scan = (false, r) := by
          simp [ProtocolV1UploadPackResponse.Scan, hg, hsc, hb]
        rw [h2]
        simp [ProtocolV1UploadPackResponse.Scan, hg, hsc, hb]
      · have h2 : r.Scan = (false, { r with err := some .earlyEOF }) := by
          simp [ProtocolV1UploadPackResponse.Scan, hg, hsc, hb]
        rw [h2]
        simp [ProtocolV1UploadPackResponse.Scan]
    | cons pkt rest =>
      cases hstep : scanStep r.state pkt with
      | error e =>
        have h2 : r.Scan = (false, { r with scanner := rest, err := some e }) := by
          simp [ProtocolV1UploadPackResponse.Scan, hg, hsc, hstep]
        rw [h2]
        simp [ProtocolV1UploadPackResponse.Scan]
      | ok a =>
        obtain ⟨c, s'⟩ := a
        have h2 : (r.Scan).1 = true := by
          simp [ProtocolV1UploadPackResponse.Scan, hg, hsc, hstep]
        rw [h2] at h
        exact absurd h (by simp)

theorem Scan_eof_beginAck {r : ProtocolV1UploadPackResponse} (he : r.err = none)
    (hsc : r.scanner = []) (hb : r.state = .BeginAcknowledgements) :
    r.Scan = (false, r) := by
  simp [ProtocolV1UploadPackResponse.Scan, he, hsc, hb]

theorem Scan_eof_early {r : ProtocolV1UploadPackResponse} (he : r.err = none)
    (hsc : r.scanner = []) (hb : r.state ≠ .BeginAcknowledgements)
    (hend : r.state ≠ .End) :
    r.Scan = (false, { r with err := some .earlyEOF }) := by
  simp [ProtocolV1UploadPackResponse.Scan, he, hsc, hb, hend]

theorem stateTrace_head (n : Nat) (r : ProtocolV1UploadPackResponse) :
    ∃ t, stateTrace n r = r.state :: t := by
  cases n with
  | zero => exact ⟨[], rfl⟩
  | succ m =>
    rw [stateTrace]
    cases hs : r.Scan with
    | mk ok r2 =>
      cases ok with
      | false => exact ⟨[], rfl⟩
      | true => exact ⟨stateTrace m r2, rfl⟩

theorem Scan_true_mono {r r2 : ProtocolV1UploadPackResponse} (h : r.Scan = (true, r2)) :
    stateIdx r.state ≤ stateIdx r2.state := by
  obtain ⟨pkt, rest, c, s', hsc, hstep, rfl⟩ := Scan_true_shape h
  exact (scanStep_ok_inv hstep).2

theorem Scan_true_curr {r r2 : ProtocolV1UploadPackResponse} (h : r.Scan = (true, r2)) :
    ∃ c, r2.curr = some c ∧ countPopulated c ≤ 1 := by
  obtain ⟨pkt, rest, c, s', hsc, hstep, rfl⟩ := Scan_true_shape h
  exact ⟨c, rfl, (scanStep_ok_inv hstep).1⟩

theorem stateTrace_chain (n : Nat) (r : ProtocolV1UploadPackResponse) :
    List.Chain' (fun a b => stateIdx a ≤ stateIdx b) (stateTrace n r) := by
  induction n generalizing r with
  | zero => simp [stateTrace]
  | succ m ih =>
    rw [stateTrace]
    cases hs : r.Scan with
    | mk ok r2 =>
      cases ok with
      | false => simp
      | true =>
        show List.Chain' (fun a b => stateIdx a ≤ stateIdx b) (r.state :: stateTrace m r2)
        obtain ⟨t, ht⟩ := stateTrace_head m r2
        rw [ht]
        exact List.chain'_cons.mpr ⟨Scan_true_mono hs, ht ▸ ih r2⟩

theorem runEvents_count (n : Nat) (r : ProtocolV1UploadPackResponse) :
    ∀ c ∈ (runEvents n r).1, countPopulated c ≤ 1 := by
  induction n generalizing r with
  | zero => intro c hc; simp [runEvents] at hc
  | succ m ih =>
    intro c hc
    rw [runEvents] at hc
    cases hs : r.Scan with
    | mk ok r2 =>
      cases ok with
      | false => rw [hs] at hc; simp at hc
      | true =>
        rw [hs] at hc
        simp only [List.mem_cons] at hc
        rcases hc with hc | hc
        · obtain ⟨c0, hcurr, hcount⟩ := Scan_true_curr hs
          rw [hc, hcurr]
          exact hcount
        · exact ih r2 c hc

theorem Scan_err_all (r : ProtocolV1UploadPackResponse)
    (hr : r.err.all (fun e => !e.isCannotSplit) = true) :
    ((r.Scan).2.err.all (fun e => !e.isCannotSplit)) = true := by
  by_cases hg : r.err ≠ none ∨ r.state = .End
  · have h2 : r.Scan = (false, r) := by simp [ProtocolV1UploadPackResponse.Scan, hg]
    rw [h2]
    exact hr
  · have he : r.err = none := by simpa using (not_or.mp hg).1
    have hend : r.state ≠ .End := (not_or.mp hg).2
    cases hsc : r.scanner with
    | nil =>
      by_cases hb : r.state = .BeginAcknowledgements
      · rw [Scan_eof_beginAck he hsc hb]
        exact hr
      · rw [Scan_eof_early he hsc hb hend]
        simp [ScanError.isCannotSplit]
    | cons pkt rest =>
      cases hstep : scanStep r.state pkt with
      | error e =>
        have h2 : r.Scan = (false, { r with scanner := rest, err := some e }) := by
          simp [ProtocolV1UploadPackResponse.Scan, hg, hsc, hstep]
        rw [h2]
        rcases scanStep_error hstep with ⟨rfl, -⟩ | ⟨rfl, -⟩ <;>
          simp [ScanError.isCannotSplit]
      | ok a =>
        obtain ⟨c, s'⟩ := a
        have h2 : r.Scan =
            (true, { r with scanner := rest, state := s', curr := some c }) := by
          simp [ProtocolV1UploadPackResponse.Scan, hg, hsc, hstep]
        rw [h2]
        exact hr

/-- After any run of the decoder, the recorded error is never one of the
malformed-line ("cannot split") errors, provided it was not one already. -/
theorem runEvents_no_cannotSplit (n : Nat) (r : ProtocolV1UploadPackResponse)
    (hr : r.err.all (fun e => !e.isCannotSplit) = true) :
    ((runEvents n r).2.err.all (fun e => !e.isCannotSplit)) = true := by
  induction n generalizing r with
  | zero => exact hr
  | succ m ih =>
    rw [runEvents]
    cases hs : r.Scan with
    | mk ok r2 =>
      cases ok with
      | false =>
        show (r2.err.all (fun e => !e.isCannotSplit)) = true
        have h3 := Scan_err_all r hr
        rw [hs] at h3
        exact h3
      | true =>
        show (((runEvents m r2).2.err.all (fun e => !e.isCannotSplit))) = true
        refine ih r2 ?_
        obtain ⟨pkt, rest, c, s', hsc2, hstep, rfl⟩ := Scan_true_shape hs
        exact hr

theorem strBytes_lf : strBytes "\n" = [10] := by decide

theorem strBytes_space : strBytes " " = [32] := by decide

instance : IsTrans protocolV1UploadPackResponseState (fun a b => stateIdx a ≤ stateIdx b) :=
  ⟨fun _ _ _ hab hbc => Nat.le_trans hab hbc⟩

/-! ### The claims -/

/-- C2 (counterexample): decoding the single byte-payload frame
`"shallow \n"` produces exactly one chunk, and that chunk has zero
populated variants (its `ShallowObjectID` is the empty string), refuting
the claim that every chunk the decoder produces has exactly one populated
variant. -/
theorem c2_exactly_one_variant_cex :
    (decode [.bytes (strBytes "shallow \n")]).1 = [{ ShallowObjectID := [] }] ∧
    countPopulated ((decode [.bytes (strBytes "shallow \n")]).1.getD 0 {}) = 0 ∧
    decide (countPopulated ((decode [.bytes (strBytes "shallow \n")]).1.getD 0 {}) = 1) =
      false := by
  exact ⟨by decide, by decide, by decide⟩

/-- C2 (amended): every chunk produced by the decoder's `Scan` across any
input frame sequence has at most one populated variant (exactly one except
for the degenerate payloads that carry an empty second token or an empty
pack payload, which populate none). -/
theorem c2_at_most_one_variant (pkts : List Packet) (n : Nat)
    (c : ProtocolV1UploadPackResponseChunk)
    (hc : c ∈ (runEvents n (NewProtocolV1UploadPackResponse pkts)).1) :
    countPopulated c ≤ 1 :=
  runEvents_count n _ c hc

/-- Witness for C2: the `EndOfShallows` chunk produced from a flush frame. -/
theorem c2_at_most_one_variant_witness :
    ({ EndOfShallows := true } : ProtocolV1UploadPackResponseChunk) ∈
      (runEvents 2 (NewProtocolV1UploadPackResponse [Packet.flush])).1 ∧
    countPopulated { EndOfShallows := true } ≤ 1 :=
  ⟨by decide, c2_at_most_one_variant [Packet.flush] 2 _ (by decide)⟩

/-- C3: end-of-stream policy.  Clean end-of-input is an error ("early EOF")
in every phase except exactly `BeginAcknowledgements` (the phase right after
the shallow phase's closing flush), where `Scan` stops with no error; in
particular one flush then end-of-input yields exactly the `EndOfShallows`
event and no error, while end-of-input in `ScanPacks` (after a NAK, no flush
seen) yields the early-EOF error. -/
theorem c3_end_of_stream_policy :
    (∀ r : ProtocolV1UploadPackResponse, r.err = none → r.scanner = [] →
      r.state = .BeginAcknowledgements →
      r.Scan = (false, r) ∧ (r.Scan).2.Err = none) ∧
    (∀ r : ProtocolV1UploadPackResponse, r.err = none → r.scanner = [] →
      r.state ≠ .BeginAcknowledgements → r.state ≠ .End →
      (r.Scan).1 = false ∧ (r.Scan).2.Err = some .earlyEOF) ∧
    (decode [Packet.flush]).1 = [{ EndOfShallows := true }] ∧
    (decode [Packet.flush]).2.Err = none ∧
    (decode [.bytes (strBytes "NAK\n")]).2.state = .ScanPacks ∧
    (decode [.bytes (strBytes "NAK\n")]).2.Err = some .earlyEOF := by
  refine ⟨?_, ?_, by decide, by decide, by decide, by decide⟩
  · intro r he hsc hb
    have h2 := Scan_eof_beginAck he hsc hb
    refine ⟨h2, ?_⟩
    rw [h2]
    exact he
  · intro r he hsc hb hend
    have h2 := Scan_eof_early he hsc hb hend
    exact ⟨by rw [h2], by rw [h2]; rfl⟩

/-- Witness for C3: both universally quantified conjuncts at concrete
decoders (clean stop at `BeginAcknowledgements`; early EOF at `Begin`). -/
theorem c3_end_of_stream_policy_witness :
    ((atPhase .BeginAcknowledgements []).Scan = (false, atPhase .BeginAcknowledgements []) ∧
      ((atPhase .BeginAcknowledgements []).Scan).2.Err = none) ∧
    (((NewProtocolV1UploadPackResponse []).Scan).1 = false ∧
      ((NewProtocolV1UploadPackResponse []).Scan).2.Err = some .earlyEOF) :=
  ⟨c3_end_of_stream_policy.1 _ rfl rfl rfl,
    c3_end_of_stream_policy.2.1 _ rfl rfl (by decide) (by decide)⟩

/-- C4: the encoder is the exact deterministic mapping the spec prescribes:
for every event with exactly one populated variant, `EncodeToPktLine`
produces precisely the frame of the spec's table (`specEventFrame`). -/
theorem c4_encoder_mapping (e : Event) (hwf : e.wf = true) :
    e.toChunk.EncodeToPktLine = some (specEventFrame e) := by
  cases e with
  | shallowAnnounce id =>
    have h : id ≠ [] := of_decide_eq_true hwf
    simp [Event.toChunk, ProtocolV1UploadPackResponseChunk.EncodeToPktLine,
      specEventFrame, h, strBytes_lf]
  | unshallowAnnounce id =>
    have h : id ≠ [] := of_decide_eq_true hwf
    simp [Event.toChunk, ProtocolV1UploadPackResponseChunk.EncodeToPktLine,
      specEventFrame, h, strBytes_lf]
  | endOfShallowPhase => decide
  | acknowledge id detail =>
    have h : id ≠ [] := of_decide_eq_true hwf
    by_cases hd : detail = []
    · subst hd
      simp [Event.toChunk, ProtocolV1UploadPackResponseChunk.EncodeToPktLine,
        specEventFrame, h, strBytes_lf]
    · simp [Event.toChunk, ProtocolV1UploadPackResponseChunk.EncodeToPktLine,
        specEventFrame, h, hd, strBytes_lf, strBytes_space,
        List.isEmpty_iff]
  | negativeAcknowledge => decide
  | packChunk b =>
    have h : b ≠ [] := of_decide_eq_true hwf
    simp [Event.toChunk, ProtocolV1UploadPackResponseChunk.EncodeToPktLine,
      specEventFrame, h]
  | endOfResponse => decide

/-- Witness for C4: the mapping at a concrete pack chunk. -/
theorem c4_encoder_mapping_witness :
    (Event.packChunk [80]).wf = true ∧
    (Event.packChunk [80]).toChunk.EncodeToPktLine =
      some (specEventFrame (Event.packChunk [80])) :=
  ⟨by decide, c4_encoder_mapping (Event.packChunk [80]) (by decide)⟩

/-- C5 (counterexample): on the single byte-payload `"shallow\n"` (no
space), the error the decoder records is the unexpected-packet error, not
the malformed-line ("cannot split") error the claim asserts: the payload
never matches the literal prefix `"shallow "`. -/
theorem c5_malformed_line_cex :
    (decode [.bytes (strBytes "shallow\n")]).2.Err =
      some (.unexpectedPacket (.bytes (strBytes "shallow\n"))) ∧
    decide ((decode [.bytes (strBytes "shallow\n")]).2.Err =
      some (.cannotSplitShallow (strBytes "shallow\n"))) = false := by
  exact ⟨by decide, by decide⟩

/-- C5 (amended): for input consisting of the single byte-payload frame
`"shallow\n"`, the first `Scan` returns false after producing zero events
and the recorded error is the unexpected-packet syntax error carrying that
frame (the payload does not match the prefix `"shallow "`, so the rule
cascade falls through to the unrecognized-first-frame rejection). -/
theorem c5_shallow_no_space_unexpected :
    ((NewProtocolV1UploadPackResponse [.bytes (strBytes "shallow\n")]).Scan).1 = false ∧
    ((NewProtocolV1UploadPackResponse [.bytes (strBytes "shallow\n")]).Scan).2.Err =
      some (.unexpectedPacket (.bytes (strBytes "shallow\n"))) ∧
    (decode [.bytes (strBytes "shallow\n")]).1 = [] := by
  exact ⟨by decide, by decide, by decide⟩

/-- C6: phase monotonicity.  Along every decoding run (any starting decoder,
any number of `Scan` calls) the sequence of visited decoder states is
non-decreasing in the fixed `Begin < ScanShallows < ... < End` order, so no
state is ever revisited after being left, and only repeats of the same state
are possible between moves forward. -/
theorem c6_phase_monotonicity (n : Nat) (r : ProtocolV1UploadPackResponse) :
    List.Pairwise (fun a b => stateIdx a ≤ stateIdx b) (stateTrace n r) :=
  (List.chain'_iff_pairwise).mp (stateTrace_chain n r)

/-- C7: idempotent termination.  Once `Scan` has returned false, the decoder
is a fixed point: every further `Scan` returns false with the same decoder,
the reported error never changes, and no frame is consumed any more. -/
theorem c7_idempotent_termination (r : ProtocolV1UploadPackResponse)
    (h : (r.Scan).1 = false) :
    (r.Scan).2.Scan = (false, (r.Scan).2) ∧
    ((r.Scan).2.Scan).2.Err = (r.Scan).2.Err ∧
    ((r.Scan).2.Scan).2.scanner = (r.Scan).2.scanner ∧
    ∀ k, scanIter k (r.Scan).2 = (r.Scan).2 := by
  have hfix := Scan_false_fix r h
  refine ⟨hfix, by rw [hfix], by rw [hfix], ?_⟩
  intro k
  induction k with
  | zero => rfl
  | succ m ih =>
    show scanIter m (((r.Scan).2.Scan).2) = (r.Scan).2
    rw [show (((r.Scan).2.Scan).2) = (r.Scan).2 from by rw [hfix]]
    exact ih

/-- Witness for C7: the empty input stops immediately (early EOF at `Begin`)
and stays stopped. -/
theorem c7_idempotent_termination_witness :
    ((NewProtocolV1UploadPackResponse []).Scan).1 = false ∧
    ((NewProtocolV1UploadPackResponse []).Scan).2.Scan =
      (false, ((NewProtocolV1UploadPackResponse []).Scan).2) :=
  ⟨by decide, (c7_idempotent_termination _ (by decide)).1⟩

/-- C8 (counterexample): a chunk with two populated variants
(`ShallowObjectID = "a"` and `Nak = true`) is not treated as a fatal caller
error: `EncodeToPktLine` silently encodes the first populated variant in
field order instead of aborting. -/
theorem c8_fatal_cex :
    countPopulated { ShallowObjectID := strBytes "a", Nak := true } = 2 ∧
    ({ ShallowObjectID := strBytes "a", Nak := true } :
        ProtocolV1UploadPackResponseChunk).EncodeToPktLine =
      some (.bytes (strBytes "shallow a\n")) ∧
    (({ ShallowObjectID := strBytes "a", Nak := true } :
        ProtocolV1UploadPackResponseChunk).EncodeToPktLine).isSome = true := by
  exact ⟨by decide, by decide, by decide⟩

/-- C8 (amended): the encoder aborts (`panic("impossible chunk")`, modelled
as `none`) exactly when the event has zero populated variants; any chunk
with at least one populated variant is encoded (the first populated variant
in field order wins), never treated as fatal. -/
theorem c8_encode_none_iff_zero (c : ProtocolV1UploadPackResponseChunk) :
    c.EncodeToPktLine = none ↔ countPopulated c = 0 := by
  unfold ProtocolV1UploadPackResponseChunk.EncodeToPktLine countPopulated
  split_ifs <;> simp_all

/-- C9: every unrecognized frame is rejected.  A first frame whose payload
matches none of the shallow/unshallow/ACK/NAK patterns is rejected at state
`Begin` with the unexpected-packet syntax error and no event; in every state
between `Begin` and `End` the fall-through cascade accepts every frame, so
no other (state, frame) pair is unmatched. -/
theorem c9_unexpected_rejected :
    (∀ (bp : List Nat) (rest : List Packet),
      (strBytes "shallow ").isPrefixOf bp = false →
      (strBytes "unshallow ").isPrefixOf bp = false →
      (strBytes "ACK ").isPrefixOf bp = false →
      bp ≠ strBytes "NAK\n" →
      (NewProtocolV1UploadPackResponse (.bytes bp :: rest)).Scan =
        (false, { scanner := rest, state := .Begin,
                  err := some (.unexpectedPacket (.bytes bp)), curr := none })) ∧
    (∀ (s : protocolV1UploadPackResponseState) (p : Packet),
      s ≠ .Begin → s ≠ .End → ∃ c s', scanStep s p = .ok (c, s')) := by
  constructor
  · intro bp rest h1 h2 h3 h4
    have hstep : scanStep .Begin (.bytes bp) = .error (.unexpectedPacket (.bytes bp)) := by
      show caseShallows .Begin (.bytes bp) = .error (.unexpectedPacket (.bytes bp))
      simp [caseShallows, caseUnshallows, caseAcknowledgements, h1, h2, h3, h4]
    simp [ProtocolV1UploadPackResponse.Scan, NewProtocolV1UploadPackResponse, hstep]
  · exact fun s p h1 h2 => scanStep_ok_of_middle p h1 h2

/-- Witness for C9: the unrecognized first payload `"oops"`, and a flush
frame accepted in state `ScanShallows`. -/
theorem c9_unexpected_rejected_witness :
    ((strBytes "shallow ").isPrefixOf (strBytes "oops") = false ∧
      (NewProtocolV1UploadPackResponse [.bytes (strBytes "oops")]).Scan =
        (false, { scanner := [], state := .Begin,
                  err := some (.unexpectedPacket (.bytes (strBytes "oops"))),
                  curr := none })) ∧
    (∃ c s', scanStep .ScanShallows .flush = .ok (c, s')) :=
  ⟨⟨by decide,
      c9_unexpected_rejected.1 _ [] (by decide) (by decide) (by decide) (by decide)⟩,
    c9_unexpected_rejected.2 .ScanShallows .flush (by decide) (by decide)⟩

/-- C10: the malformed-line error branches are unreachable.  Whenever a
payload starts with one of the literal prefixes (each of which ends in a
space), splitting the trimmed payload on spaces yields at least two tokens,
so no run of the decoder ever records a "cannot split" error; the payload
`"shallow \n"` is instead accepted and emits a `ShallowAnnounce` chunk with
an empty object id. -/
theorem c10_cannot_split_unreachable :
    (∀ bp : List Nat, (strBytes "shallow ").isPrefixOf bp = true →
      2 ≤ (splitN 32 2 (trimSuffixLF bp)).length) ∧
    (∀ bp : List Nat, (strBytes "unshallow ").isPrefixOf bp = true →
      2 ≤ (splitN 32 2 (trimSuffixLF bp)).length) ∧
    (∀ bp : List Nat, (strBytes "ACK ").isPrefixOf bp = true →
      2 ≤ (splitN 32 3 (trimSuffixLF bp)).length) ∧
    (∀ (n : Nat) (pkts : List Packet),
      ((runEvents n (NewProtocolV1UploadPackResponse pkts)).2.err.all
        (fun e => !e.isCannotSplit)) = true) ∧
    ((NewProtocolV1UploadPackResponse [.bytes (strBytes "shallow \n")]).Scan).1 = true ∧
    ((NewProtocolV1UploadPackResponse [.bytes (strBytes "shallow \n")]).Scan).2.Chunk =
      some { ShallowObjectID := [] } := by
  refine ⟨?_, ?_, ?_, ?_, by decide, by decide⟩
  · exact fun bp h => two_le_splitN_of_pre h (by decide) (by decide) 0
  · exact fun bp h => two_le_splitN_of_pre h (by decide) (by decide) 0
  · exact fun bp h => two_le_splitN_of_pre h (by decide) (by decide) 1
  · exact fun n pkts => runEvents_no_cannotSplit n _ (by rfl)

/-- Witness for C10: the split bound at the concrete payload
`"shallow x\n"`. -/
theorem c10_cannot_split_unreachable_witness :
    (strBytes "shallow ").isPrefixOf (strBytes "shallow x\n") = true ∧
    2 ≤ (splitN 32 2 (trimSuffixLF (strBytes "shallow x\n"))).length :=
  ⟨by decide, c10_cannot_split_unreachable.1 _ (by decide)⟩

/-- C1 (counterexample): the well-formed event `Acknowledge("c c", "")`
(non-empty object id) encodes to the payload `"ACK c c\n"`, but decoding
that frame right after the shallow phase's closing flush yields
`Acknowledge("c", "c")`, not the original event: the round-trip fails for
object ids containing a space. -/
theorem c1_roundtrip_cex :
    (Event.acknowledge (strBytes "c c") []).wf = true ∧
    (Event.acknowledge (strBytes "c c") []).toChunk.EncodeToPktLine =
      some (.bytes (strBytes "ACK c c\n")) ∧
    (decode [Packet.flush, .bytes (strBytes "ACK c c\n")]).1 =
      [{ EndOfShallows := true },
        { AckObjectID := strBytes "c", AckDetail := strBytes "c" }] ∧
    decide ((decode [Packet.flush, .bytes (strBytes "ACK c c\n")]).1.getD 1 {} =
      (Event.acknowledge (strBytes "c c") []).toChunk) = false := by
  exact ⟨by decide, by decide, by decide, by decide⟩

/-- C1 (amended): round-trip holds for every well-formed event whose
Acknowledge object id is free of space bytes: encoding the event and
decoding the resulting frame with `Scan` from a phase where the event is
legal yields the event unchanged and moves to the expected phase (in
particular `Acknowledge("cccc","")` encodes to payload `"ACK cccc\n"`, with
no trailing space, and decodes back to itself). -/
theorem c1_roundtrip (e : Event) (rest : List Packet) (hwf : e.wf = true)
    (hsf : e.ackSpaceFree = true) :
    ∃ p, e.toChunk.EncodeToPktLine = some p ∧
      ((atPhase (legalPhase e) (p :: rest)).Scan).1 = true ∧
      ((atPhase (legalPhase e) (p :: rest)).Scan).2.Chunk = some e.toChunk ∧
      ((atPhase (legalPhase e) (p :: rest)).Scan).2.state = phaseAfter e := by
  cases e with
  | shallowAnnounce id =>
    have hid : id ≠ [] := of_decide_eq_true hwf
    have henc : ({ ShallowObjectID := id } :
        ProtocolV1UploadPackResponseChunk).EncodeToPktLine =
        some (.bytes (strBytes "shallow " ++ id ++ [10])) := by
      simp [ProtocolV1UploadPackResponseChunk.EncodeToPktLine, hid]
    have hstep : scanStep .Begin (.bytes (strBytes "shallow " ++ id ++ [10])) =
        .ok ({ ShallowObjectID := id }, .ScanShallows) := caseShallows_decode _ _
    simp only [Event.toChunk, legalPhase, phaseAfter]
    refine ⟨_, henc, ?_, ?_, ?_⟩ <;> rw [Scan_cons_ok rest hstep (by decide)] <;> rfl
  | unshallowAnnounce id =>
    have hid : id ≠ [] := of_decide_eq_true hwf
    have henc : ({ UnshallowObjectID := id } :
        ProtocolV1UploadPackResponseChunk).EncodeToPktLine =
        some (.bytes (strBytes "unshallow " ++ id ++ [10])) := by
      simp [ProtocolV1UploadPackResponseChunk.EncodeToPktLine, hid]
    have hstep : scanStep .Begin (.bytes (strBytes "unshallow " ++ id ++ [10])) =
        .ok ({ UnshallowObjectID := id }, .ScanUnshallows) := by
      have hneg : (strBytes "shallow ").isPrefixOf
          (strBytes "unshallow " ++ id ++ [10]) = false := by
        rw [List.append_assoc]
        exact not_shallow_pre_unshallow _
      show caseShallows .Begin (.bytes (strBytes "unshallow " ++ id ++ [10])) = _
      rw [show caseShallows .Begin (.bytes (strBytes "unshallow " ++ id ++ [10])) =
          caseUnshallows .Begin (.bytes (strBytes "unshallow " ++ id ++ [10])) from by
        simp only [caseShallows]
        rw [if_neg (by rw [hneg]; simp)]]
      exact caseUnshallows_decode _ _
    simp only [Event.toChunk, legalPhase, phaseAfter]
    refine ⟨_, henc, ?_, ?_, ?_⟩ <;> rw [Scan_cons_ok rest hstep (by decide)] <;> rfl
  | endOfShallowPhase =>
    have hstep : scanStep .Begin .flush =
        .ok ({ EndOfShallows := true }, .BeginAcknowledgements) := rfl
    simp only [Event.toChunk, legalPhase, phaseAfter]
    refine ⟨.flush, by decide, ?_, ?_, ?_⟩ <;> rw [Scan_cons_ok rest hstep (by decide)] <;>
      rfl
  | acknowledge id detail =>
    have hid : id ≠ [] := of_decide_eq_true hwf
    have hsp : (32 : Nat) ∉ id := of_decide_eq_true hsf
    by_cases hd : detail = []
    · subst hd
      have henc : ({ AckObjectID := id, AckDetail := [] } :
          ProtocolV1UploadPackResponseChunk).EncodeToPktLine =
          some (.bytes (strBytes "ACK " ++ id ++ [10])) := by
        simp [ProtocolV1UploadPackResponseChunk.EncodeToPktLine, hid]
      have hstep : scanStep .BeginAcknowledgements (.bytes (strBytes "ACK " ++ id ++ [10])) =
          .ok ({ AckObjectID := id, AckDetail := [] }, .ScanAcknowledgements) :=
        caseAcknowledgements_decode_nodetail _ hsp
      simp only [Event.toChunk, legalPhase, phaseAfter]
      refine ⟨_, henc, ?_, ?_, ?_⟩ <;> rw [Scan_cons_ok rest hstep (by decide)] <;> rfl
    · have henc : ({ AckObjectID := id, AckDetail := detail } :
          ProtocolV1UploadPackResponseChunk).EncodeToPktLine =
          some (.bytes (strBytes "ACK " ++ id ++ [32] ++ detail ++ [10])) := by
        simp [ProtocolV1UploadPackResponseChunk.EncodeToPktLine, hid, hd]
      have hstep : scanStep .BeginAcknowledgements
          (.bytes (strBytes "ACK " ++ id ++ [32] ++ detail ++ [10])) =
          .ok ({ AckObjectID := id, AckDetail := detail }, .ScanAcknowledgements) :=
        caseAcknowledgements_decode_detail _ detail hsp
      simp only [Event.toChunk, legalPhase, phaseAfter]
      refine ⟨_, henc, ?_, ?_, ?_⟩ <;> rw [Scan_cons_ok rest hstep (by decide)] <;> rfl
  | negativeAcknowledge =>
    have hstep : scanStep .BeginAcknowledgements (.bytes (strBytes "NAK\n")) =
        .ok ({ Nak := true }, .ScanPacks) :=
      caseAcknowledgements_nak .BeginAcknowledgements
    simp only [Event.toChunk, legalPhase, phaseAfter]
    refine ⟨.bytes (strBytes "NAK\n"), by decide, ?_, ?_, ?_⟩ <;>
      rw [Scan_cons_ok rest hstep (by decide)] <;> rfl
  | packChunk b =>
    have hb : b ≠ [] := of_decide_eq_true hwf
    have henc : ({ PackStream := b } :
        ProtocolV1UploadPackResponseChunk).EncodeToPktLine = some (.bytes b) := by
      simp [ProtocolV1UploadPackResponseChunk.EncodeToPktLine, hb]
    have hstep : scanStep .ScanPacks (.bytes b) =
        .ok ({ PackStream := b }, .ScanPacks) := rfl
    simp only [Event.toChunk, legalPhase, phaseAfter]
    refine ⟨_, henc, ?_, ?_, ?_⟩ <;> rw [Scan_cons_ok rest hstep (by decide)] <;> rfl
  | endOfResponse =>
    have hstep : scanStep .ScanPacks .flush = .ok ({ EndOfRequest := true }, .End) := rfl
    simp only [Event.toChunk, legalPhase, phaseAfter]
    refine ⟨.flush, by decide, ?_, ?_, ?_⟩ <;> rw [Scan_cons_ok rest hstep (by decide)] <;>
      rfl

/-- Witness for C1: Scenario F.  `Acknowledge("cccc","")` encodes to the
payload `"ACK cccc\n"` (no trailing space) and decodes back to itself. -/
theorem c1_roundtrip_witness :
    (Event.acknowledge (strBytes "cccc") []).wf = true ∧
    (Event.acknowledge (strBytes "cccc") []).ackSpaceFree = true ∧
    (Event.acknowledge (strBytes "cccc") []).toChunk.EncodeToPktLine =
      some (.bytes (strBytes "ACK cccc\n")) ∧
    (∃ p, (Event.acknowledge (strBytes "cccc") []).toChunk.EncodeToPktLine = some p ∧
      ((atPhase (legalPhase (Event.acknowledge (strBytes "cccc") []))
          (p :: [])).Scan).1 = true ∧
      ((atPhase (legalPhase (Event.acknowledge (strBytes "cccc") []))
          (p :: [])).Scan).2.Chunk =
        some (Event.acknowledge (strBytes "cccc") []).toChunk ∧
      ((atPhase (legalPhase (Event.acknowledge (strBytes "cccc") []))
          (p :: [])).Scan).2.state = phaseAfter (Event.acknowledge (strBytes "cccc") [])) :=
  ⟨by decide, by decide, by decide,
    c1_roundtrip (Event.acknowledge (strBytes "cccc") []) [] (by decide) (by decide)⟩

end Gitprotocolio
